import Mathlib

/-
Shallow embedding of the core logic of iomz/hito (src-tauri/src/lib.rs):
the query engine (sort_images) and the synchronized configuration store
(update_app_data_sync, save_data_file_path, save_app_data).

Conventions of the embedding:
- Rust u64 values become Nat; the one place where u64 arithmetic can
  overflow (kibibyte-to-byte conversion, size_value_kb * 1024) takes the
  result modulo 2 ^ 64, matching release-profile wrapping semantics.
- Rust i64 timestamps become Int.
- Vec<T> becomes List T, Option<T> becomes Option T, Result<T, String>
  becomes Except String T.
- HashMap<String, V> built by collect() from a vector of pairs is modeled
  by the association list itself together with last-occurrence lookup
  (assocLookupLast), since HashMap insertion lets later pairs overwrite
  earlier ones; the DataFileMap of the config store is modeled as an
  association list with replace-or-append insertion (dfInsert).
- Rust stable sort_by is modeled by List.insertionSort, a stable sort:
  both place an element before later tied elements, so on total-preorder
  comparators (all comparators below are) they agree.
- chrono::DateTime::parse_from_rfc3339 followed by .timestamp() is modeled
  by parseRFC3339, an executable RFC 3339 parser returning whole seconds
  since the Unix epoch (fractional seconds are truncated, as .timestamp()
  does); str::to_lowercase is modeled by strToLower (ASCII lowering).
- File-system state of the config store is an Option String (None when
  app-config.json does not exist, Some content otherwise); JSON
  (de)serialization of serde_json is abstracted as explicit parse and
  serialize function parameters, since the claims about the store concern
  its control flow, not the JSON grammar.
-/

namespace Hito

/-- ImagePath record: path, optional size in bytes, optional ISO 8601
creation timestamp (struct ImagePath in lib.rs). -/
structure ImagePath where
  path : String
  size : Option Nat
  created_at : Option String
deriving DecidableEq, Repr

/-- CategoryAssignment: category identifier plus ISO 8601 assignment
timestamp (struct CategoryAssignment in lib.rs). -/
structure CategoryAssignment where
  category_id : String
  assigned_at : String
deriving DecidableEq, Repr

/-- FilterOptions passed to sort_images (struct FilterOptions in lib.rs). -/
structure FilterOptions where
  category_id : Option String
  name_pattern : Option String
  name_operator : Option String
  size_operator : Option String
  size_value : Option String
  size_value2 : Option String

/-- CategoryData value record (struct CategoryData in lib.rs). -/
structure CategoryData where
  id : String
  name : String
  color : String
deriving DecidableEq

/-- HotkeyData value record (struct HotkeyData in lib.rs). -/
structure HotkeyData where
  id : String
  key : String
  modifiers : List String
  action : String
deriving DecidableEq

/-- Directory-to-data-file-path mapping (type DataFileMap in lib.rs),
modeled as an association list. -/
abbrev DataFileMap := List (String × String)

/-- AppData config document (struct AppData in lib.rs). -/
structure AppData where
  categories : List CategoryData
  hotkeys : List HotkeyData
  data_file_paths : Option DataFileMap
deriving DecidableEq

/-- Default AppData, as produced by the derived Default in lib.rs. -/
def AppData.default : AppData := ⟨[], [], none⟩

/-- Model of u64::from_str as used by str::parse::<u64> on the size
thresholds: an optional leading plus sign, then one or more ASCII digits,
rejecting values that overflow u64. -/
def parseU64 (s : String) : Option Nat :=
  let cs := match s.data with
    | '+' :: rest => rest
    | cs => cs
  if cs.isEmpty then none
  else if cs.all Char.isDigit then
    let v := cs.foldl (fun acc c => acc * 10 + (c.toNat - 48)) 0
    if v < 2 ^ 64 then some v else none
  else none

/-- Gregorian leap-year test (proleptic), used for date validation. -/
def isLeapYear (y : Nat) : Bool :=
  y % 4 == 0 && (y % 100 != 0 || y % 400 == 0)

/-- Number of days in a month of a given year. -/
def daysInMonth (y m : Nat) : Nat :=
  if m == 2 then (if isLeapYear y then 29 else 28)
  else if m == 4 || m == 6 || m == 9 || m == 11 then 30
  else 31

/-- Days since 1970-01-01 of a civil date (standard days-from-civil
algorithm, valid for the four-digit years an RFC 3339 string can carry). -/
def daysFromCivil (y m d : Nat) : Int :=
  let yAdj : Int := if m ≤ 2 then (y : Int) - 1 else (y : Int)
  let era : Int := (if 0 ≤ yAdj then yAdj else yAdj - 399) / 400
  let yoe : Int := yAdj - era * 400
  let mp : Nat := (m + 9) % 12
  let doy : Int := (153 * (mp : Int) + 2) / 5 + (d : Int) - 1
  let doe : Int := yoe * 365 + yoe / 4 - yoe / 100 + doy
  era * 146097 + doe - 719468

/-- Parse exactly two ASCII digits from the front of a character list. -/
def twoDigits : List Char → Option (Nat × List Char)
  | c1 :: c2 :: rest =>
    if c1.isDigit && c2.isDigit then
      some ((c1.toNat - 48) * 10 + (c2.toNat - 48), rest)
    else none
  | _ => none

/-- Parse exactly four ASCII digits from the front of a character list. -/
def fourDigits : List Char → Option (Nat × List Char)
  | c1 :: c2 :: c3 :: c4 :: rest =>
    if c1.isDigit && c2.isDigit && c3.isDigit && c4.isDigit then
      some ((c1.toNat - 48) * 1000 + (c2.toNat - 48) * 100 +
            (c3.toNat - 48) * 10 + (c4.toNat - 48), rest)
    else none
  | _ => none

/-- Expect a specific character at the front of a character list. -/
def expectChar (c : Char) : List Char → Option (List Char)
  | x :: rest => if x == c then some rest else none
  | [] => none

/-- Drop a run of leading ASCII digits. -/
def skipDigits : List Char → List Char
  | c :: rest => if c.isDigit then skipDigits rest else c :: rest
  | [] => []

/-- Skip an optional fractional-seconds field: a dot followed by at least
one digit; fails on a dot without digits. -/
def skipFraction : List Char → Option (List Char)
  | c :: rest =>
    if c == '.' then
      match rest with
      | d :: _ => if d.isDigit then some (skipDigits rest) else none
      | [] => none
    else some (c :: rest)
  | [] => some []

/-- Parse the trailing RFC 3339 offset (Z, z, or sHH:MM) into a signed
number of seconds; the whole input must be consumed. -/
def parseOffset : List Char → Option Int
  | c :: rest =>
    if c == 'Z' || c == 'z' then
      if rest.isEmpty then some 0 else none
    else if c == '+' || c == '-' then
      match twoDigits rest with
      | some (hh, rest2) =>
        match expectChar ':' rest2 with
        | some rest3 =>
          match twoDigits rest3 with
          | some (mm, rest4) =>
            if rest4.isEmpty ∧ hh ≤ 23 ∧ mm ≤ 59 then
              some (if c == '-' then -((hh * 3600 + mm * 60 : Nat) : Int)
                    else ((hh * 3600 + mm * 60 : Nat) : Int))
            else none
          | none => none
        | none => none
      | none => none
    else none
  | [] => none

/-- Model of chrono::DateTime::parse_from_rfc3339 composed with
.timestamp(): parse a YYYY-MM-DDTHH:MM:SS[.frac](Z|sHH:MM) string and
return whole seconds since the Unix epoch, or none when the string is not
a valid RFC 3339 timestamp. -/
def parseRFC3339 (s : String) : Option Int := do
  let l0 := s.data
  let (y, l1) ← fourDigits l0
  let l2 ← expectChar '-' l1
  let (mo, l3) ← twoDigits l2
  let l4 ← expectChar '-' l3
  let (d, l5) ← twoDigits l4
  let l6 ← match l5 with
    | c :: rest => if c == 'T' || c == 't' then some rest else none
    | [] => none
  let (hh, l7) ← twoDigits l6
  let l8 ← expectChar ':' l7
  let (mi, l9) ← twoDigits l8
  let l10 ← expectChar ':' l9
  let (ss, l11) ← twoDigits l10
  let l12 ← skipFraction l11
  let off ← parseOffset l12
  if 1 ≤ mo ∧ mo ≤ 12 ∧ 1 ≤ d ∧ d ≤ daysInMonth y mo ∧ hh ≤ 23 ∧ mi ≤ 59 ∧ ss ≤ 59 then
    some (daysFromCivil y mo d * 86400 +
      ((hh * 3600 + mi * 60 + ss : Nat) : Int) - off)
  else none

/-- Split a character list at every slash (kernel-computable equivalent
of splitting a Unix path into components). -/
def splitOnSlash : List Char → List Char → List (List Char)
  | [], acc => [acc.reverse]
  | c :: rest, acc =>
    if c == '/' then acc.reverse :: splitOnSlash rest []
    else splitOnSlash rest (c :: acc)

/-- Model of str::to_lowercase as used on file names and patterns
(ASCII lowering; kernel-computable). -/
def strToLower (s : String) : String := String.mk (s.data.map Char.toLower)

/-- Model of std::path::Path::file_name for Unix-style paths: the last
normal component, ignoring empty and single-dot components; none when the
path is empty, is a root, or ends in a parent-directory component. -/
def fileName (p : String) : Option String :=
  let comps := (splitOnSlash p.data []).filter
    (fun c => !(c.isEmpty || c == ['.']))
  match comps.getLast? with
  | none => none
  | some c => if c == ['.', '.'] then none else some (String.mk c)

/-- The lowercased file-name component of a path, empty when there is
none; this is the value both the name filter and the name sort compare
(file_name().and_then(to_str) lowered with unwrap_or-default in lib.rs). -/
def lowerFileName (p : String) : String :=
  ((fileName p).map strToLower).getD ""

/-- Does the first character list start with the second
(str::starts_with)? -/
def charsHavePre : List Char → List Char → Bool
  | _, [] => true
  | [], _ :: _ => false
  | a :: s, b :: p => a == b && charsHavePre s p

/-- Does the first character list contain the second as a contiguous
substring (str::contains)? -/
def charsHaveSub : List Char → List Char → Bool
  | [], p => p.isEmpty
  | a :: t, p => charsHavePre (a :: t) p || charsHaveSub t p

/-- str::starts_with on strings. -/
def strStartsWith (s p : String) : Bool := charsHavePre s.data p.data

/-- str::ends_with on strings. -/
def strEndsWith (s p : String) : Bool :=
  charsHavePre s.data.reverse p.data.reverse

/-- str::contains on strings (substring search). -/
def strContainsSub (s p : String) : Bool := charsHaveSub s.data p.data

/-- Lookup in the association list that models the HashMap built in
sort_images by image_categories.into_iter().collect(): because collect
inserts pairs left to right and HashMap::insert overwrites, the LAST pair
with a given key wins. -/
def assocLookupLast (l : List (String × List CategoryAssignment))
    (p : String) : Option (List CategoryAssignment) :=
  match l with
  | [] => none
  | (k, v) :: t =>
    match assocLookupLast t p with
    | some w => some w
    | none => if k == p then some v else none

/-- The category filter of sort_images (lib.rs lines 672-689): a special
value "uncategorized" keeps images whose assignment list is absent or
empty; any other non-empty value keeps images with at least one assignment
of exactly that category id; an absent or empty value filters nothing. -/
def applyCategoryFilter (lookup : String → Option (List CategoryAssignment))
    (category_id : Option String) (images : List ImagePath) : List ImagePath :=
  match category_id with
  | none => images
  | some cid =>
    if cid = "" then images
    else if cid = "uncategorized" then
      images.filter (fun img =>
        match lookup img.path with
        | none => true
        | some assignments => assignments.isEmpty)
    else
      images.filter (fun img =>
        match lookup img.path with
        | none => false
        | some assignments => assignments.any (fun a => a.category_id == cid))

/-- The name filter of sort_images (lib.rs lines 691-711): lowercases the
pattern and each image's file-name component, then applies the operator;
any operator other than startsWith, endsWith, exact behaves as contains. -/
def applyNameFilter (name_pattern name_operator : Option String)
    (images : List ImagePath) : List ImagePath :=
  match name_pattern with
  | none => images
  | some np =>
    if np = "" then images
    else
      let pattern := strToLower np
      let op := name_operator.getD "contains"
      images.filter (fun img =>
        let file_name := lowerFileName img.path
        match op with
        | "startsWith" => strStartsWith file_name pattern
        | "endsWith" => strEndsWith file_name pattern
        | "exact" => file_name == pattern
        | _ => strContainsSub file_name pattern)

/-- The size filter of sort_images (lib.rs lines 715-755): thresholds are
kibibyte strings parsed as u64 and scaled to bytes (wrapping u64
multiplication by 1024); a missing image size counts as 0; lessThan and
between are recognized, anything else behaves as largerThan; between needs
a second parseable threshold and compares against their min and max; any
absent, empty or unparsable threshold makes the whole clause a no-op. -/
def applySizeFilter (size_operator size_value size_value2 : Option String)
    (images : List ImagePath) : List ImagePath :=
  match size_value with
  | none => images
  | some sv =>
    if sv = "" then images
    else
      match parseU64 sv with
      | none => images
      | some size_value_kb =>
        let size_value_bytes := size_value_kb * 1024 % 2 ^ 64
        let op := size_operator.getD "largerThan"
        match op with
        | "lessThan" =>
          images.filter (fun img => decide (img.size.getD 0 < size_value_bytes))
        | "between" =>
          match size_value2 with
          | none => images
          | some sv2 =>
            if sv2 = "" then images
            else
              match parseU64 sv2 with
              | none => images
              | some size_value2_kb =>
                let size_value2_bytes := size_value2_kb * 1024 % 2 ^ 64
                let min_size := min size_value_bytes size_value2_bytes
                let max_size := max size_value_bytes size_value2_bytes
                images.filter (fun img =>
                  decide (min_size ≤ img.size.getD 0) &&
                  decide (img.size.getD 0 ≤ max_size))
        | _ =>
          images.filter (fun img => decide (size_value_bytes < img.size.getD 0))

/-- The filtering phase of sort_images: category, then name, then size
clause, each a no-op when absent. -/
def applyFilters (lookup : String → Option (List CategoryAssignment))
    (filter_options : Option FilterOptions) (images : List ImagePath) :
    List ImagePath :=
  match filter_options with
  | none => images
  | some filters =>
    applySizeFilter filters.size_operator filters.size_value filters.size_value2
      (applyNameFilter filters.name_pattern filters.name_operator
        (applyCategoryFilter lookup filters.category_id images))

/-- Comparator result for Nat, as Ord::cmp on u64. -/
def cmpNat (a b : Nat) : Ordering :=
  if a < b then .lt else if b < a then .gt else .eq

/-- Comparator result for Int, as Ord::cmp on i64. -/
def cmpInt (a b : Int) : Ordering :=
  if a < b then .lt else if b < a then .gt else .eq

/-- Lexicographic comparison of character lists by code point, as
Ord::cmp on Rust strings (UTF-8 byte order equals code-point order). -/
def cmpChars : List Char → List Char → Ordering
  | [], [] => .eq
  | [], _ :: _ => .lt
  | _ :: _, [] => .gt
  | a :: as, b :: bs =>
    match cmpNat a.toNat b.toNat with
    | .eq => cmpChars as bs
    | o => o

/-- String comparison by code points (String::cmp). -/
def cmpStr (a b : String) : Ordering := cmpChars a.data b.data

/-- The dateCreated sort key: created_at parsed as RFC 3339 epoch
seconds, none when absent or unparsable. -/
def dateCreatedKey (img : ImagePath) : Option Int :=
  img.created_at.bind (fun d => parseRFC3339 d)

/-- Comparison of optional timestamps with none (missing or unparsable
date) ordered after every present value, two none mutually equal —
the dateCreated comparator of sort_images. -/
def cmpOptDate : Option Int → Option Int → Ordering
  | some a, some b => cmpInt a b
  | some _, none => .lt
  | none, some _ => .gt
  | none, none => .eq

/-- The lastCategorized sort value of an image path (the
get_latest_assignment closure in sort_images): the maximum parseable
assignment timestamp, or 0 when the image has no entry, an empty list, or
no parseable timestamp. -/
def get_latest_assignment
    (lookup : String → Option (List CategoryAssignment)) (path : String) : Int :=
  match lookup path with
  | none => 0
  | some assignments =>
    if assignments.isEmpty then 0
    else
      match (assignments.filterMap
          (fun a => parseRFC3339 a.assigned_at)).max? with
      | some m => m
      | none => 0

/-- The ascending comparator sort_images uses for each recognized sort
key (the bodies of the four sort_by closures before direction reversal). -/
def sortCmp (sort_option : String)
    (lookup : String → Option (List CategoryAssignment))
    (a b : ImagePath) : Ordering :=
  match sort_option with
  | "name" => cmpStr (lowerFileName a.path) (lowerFileName b.path)
  | "size" => cmpNat (a.size.getD 0) (b.size.getD 0)
  | "dateCreated" => cmpOptDate (dateCreatedKey a) (dateCreatedKey b)
  | "lastCategorized" =>
    cmpInt (get_latest_assignment lookup a.path)
      (get_latest_assignment lookup b.path)
  | _ => .eq

/-- Direction adjustment: descending reverses each comparator result
(Ordering::reverse), ascending leaves it unchanged. -/
def dirOrd (is_descending : Bool) (o : Ordering) : Ordering :=
  if is_descending then o.swap else o

/-- The non-strict order induced by a comparator: not Greater, exactly
how sort_by consumes an Ordering-valued comparator. -/
def leOf {α : Type} (c : α → α → Ordering) (a b : α) : Prop :=
  c a b ≠ Ordering.gt

instance {α : Type} (c : α → α → Ordering) : DecidableRel (leOf c) :=
  fun a b => instDecidableNot

/-- The sorting phase of sort_images: a stable sort by the
direction-adjusted comparator for the four recognized keys, identity for
any other sort_option. -/
def applySort (sort_option sort_direction : String)
    (lookup : String → Option (List CategoryAssignment))
    (images : List ImagePath) : List ImagePath :=
  let is_descending := sort_direction == "descending"
  match sort_option with
  | "name" | "size" | "dateCreated" | "lastCategorized" =>
    images.insertionSort
      (leOf (fun a b => dirOrd is_descending (sortCmp sort_option lookup a b)))
  | _ => images

/-- The pure body of sort_images over an already-built category lookup:
filter first, then sort. -/
def sort_images_core (images : List ImagePath)
    (sort_option sort_direction : String)
    (lookup : String → Option (List CategoryAssignment))
    (filter_options : Option FilterOptions) : List ImagePath :=
  applySort sort_option sort_direction lookup
    (applyFilters lookup filter_options images)

/-- The sort_images tauri command (lib.rs lines 657-856): builds the
category map from the supplied pair list, filters, sorts, and always
returns Ok. -/
def sort_images (images : List ImagePath)
    (sort_option sort_direction : String)
    (image_categories : List (String × List CategoryAssignment))
    (filter_options : Option FilterOptions) :
    Except String (List ImagePath) :=
  Except.ok (sort_images_core images sort_option sort_direction
    (assocLookupLast image_categories) filter_options)

/-- HashMap::insert on the DataFileMap model: replace the value of an
existing key, otherwise append the new pair. -/
def dfInsert (m : DataFileMap) (k v : String) : DataFileMap :=
  if m.any (fun kv => kv.1 == k) then
    m.map (fun kv => if kv.1 == k then (k, v) else kv)
  else m ++ [(k, v)]

/-- The load-or-default step of update_app_data_sync: the default
document when app-config.json does not exist, otherwise the parse of its
content (which may fail). -/
def load_or_default (parse : String → Except String AppData)
    (file : Option String) : Except String AppData :=
  match file with
  | none => Except.ok AppData.default
  | some content => parse content

/-- The synchronized read-modify-write operation on app-config.json
(update_app_data_sync in lib.rs, lines 469-503). The process-wide mutex
makes the whole read-transform-serialize-write sequence one atomic step,
which this function models as a single state transition on the file
content; serde_json parse and serialize are the parse and ser parameters.
Returns the new file state together with the operation's result. -/
def update_app_data_sync (parse : String → Except String AppData)
    (ser : AppData → Except String String) (file : Option String)
    (update_fn : AppData → Except String AppData) :
    Option String × Except String Unit :=
  match load_or_default parse file with
  | .error e => (file, .error e)
  | .ok current_data =>
    match update_fn current_data with
    | .error e => (file, .error e)
    | .ok updated_data =>
      match ser updated_data with
      | .error e => (file, .error e)
      | .ok json_content => (some json_content, .ok ())

/-- The transform save_data_file_path passes to update_app_data_sync:
initialize data_file_paths when absent and insert the directory mapping,
leaving the other fields alone. -/
def save_data_file_path_transform (directory data_file_path : String)
    (app_data : AppData) : Except String AppData :=
  Except.ok { app_data with
    data_file_paths :=
      some (dfInsert (app_data.data_file_paths.getD []) directory data_file_path) }

/-- The save_data_file_path tauri command (lib.rs lines 531-543) as a
state transition on the config file. -/
def save_data_file_path (directory data_file_path : String)
    (parse : String → Except String AppData)
    (ser : AppData → Except String String) (file : Option String) :
    Option String × Except String Unit :=
  update_app_data_sync parse ser file
    (save_data_file_path_transform directory data_file_path)

/-- The transform save_app_data passes to update_app_data_sync: replace
categories and hotkeys, preserving data_file_paths. -/
def save_app_data_transform (categories : List CategoryData)
    (hotkeys : List HotkeyData) (app_data : AppData) :
    Except String AppData :=
  Except.ok { app_data with categories := categories, hotkeys := hotkeys }

/-- The save_app_data tauri command (lib.rs lines 588-599) as a state
transition on the config file. -/
def save_app_data (categories : List CategoryData)
    (hotkeys : List HotkeyData) (parse : String → Except String AppData)
    (ser : AppData → Except String String) (file : Option String) :
    Option String × Except String Unit :=
  update_app_data_sync parse ser file
    (save_app_data_transform categories hotkeys)

/-! Helper lemmas about the comparators. -/

theorem cmpNat_eq_lt (a b : Nat) : cmpNat a b = Ordering.lt ↔ a < b := by
  unfold cmpNat
  split
  · simp_all
  · split <;> simp_all <;> omega

theorem cmpNat_eq_gt (a b : Nat) : cmpNat a b = Ordering.gt ↔ b < a := by
  unfold cmpNat
  split
  · simp_all; omega
  · split <;> simp_all

theorem cmpNat_eq_eq (a b : Nat) : cmpNat a b = Ordering.eq ↔ a = b := by
  unfold cmpNat
  split
  · simp_all; omega
  · split <;> simp_all <;> omega

theorem cmpNat_swap (a b : Nat) : cmpNat b a = (cmpNat a b).swap := by
  rcases h : cmpNat a b
  · rw [cmpNat_eq_lt] at h
    show cmpNat b a = Ordering.gt
    rw [cmpNat_eq_gt]
    exact h
  · rw [cmpNat_eq_eq] at h
    subst h
    show cmpNat a a = Ordering.eq
    rw [cmpNat_eq_eq]
  · rw [cmpNat_eq_gt] at h
    show cmpNat b a = Ordering.lt
    rw [cmpNat_eq_lt]
    exact h

theorem cmpInt_eq_lt (a b : Int) : cmpInt a b = Ordering.lt ↔ a < b := by
  unfold cmpInt
  split
  · simp_all
  · split <;> simp_all <;> omega

theorem cmpInt_eq_gt (a b : Int) : cmpInt a b = Ordering.gt ↔ b < a := by
  unfold cmpInt
  split
  · simp_all; omega
  · split <;> simp_all

theorem cmpInt_eq_eq (a b : Int) : cmpInt a b = Ordering.eq ↔ a = b := by
  unfold cmpInt
  split
  · simp_all; omega
  · split <;> simp_all <;> omega

theorem cmpInt_swap (a b : Int) : cmpInt b a = (cmpInt a b).swap := by
  rcases h : cmpInt a b
  · rw [cmpInt_eq_lt] at h
    show cmpInt b a = Ordering.gt
    rw [cmpInt_eq_gt]
    exact h
  · rw [cmpInt_eq_eq] at h
    subst h
    show cmpInt a a = Ordering.eq
    rw [cmpInt_eq_eq]
  · rw [cmpInt_eq_gt] at h
    show cmpInt b a = Ordering.lt
    rw [cmpInt_eq_lt]
    exact h

theorem cmpInt_le_trans (a b c : Int) (h1 : cmpInt a b ≠ Ordering.gt)
    (h2 : cmpInt b c ≠ Ordering.gt) : cmpInt a c ≠ Ordering.gt := by
  rw [Ne, cmpInt_eq_gt] at h1 h2 ⊢
  omega

theorem cmpChars_swap : ∀ (a b : List Char), cmpChars b a = (cmpChars a b).swap := by
  intro a
  induction a with
  | nil => intro b; cases b <;> rfl
  | cons x xs ih =>
    intro b
    cases b with
    | nil => rfl
    | cons y ys =>
      show cmpChars (y :: ys) (x :: xs) = (cmpChars (x :: xs) (y :: ys)).swap
      simp only [cmpChars]
      rw [cmpNat_swap]
      rcases cmpNat x.toNat y.toNat <;> simp [Ordering.swap, ih]

theorem cmpChars_le_trans :
    ∀ (a b c : List Char), cmpChars a b ≠ Ordering.gt →
      cmpChars b c ≠ Ordering.gt → cmpChars a c ≠ Ordering.gt := by
  intro a
  induction a with
  | nil =>
    intro b c _ _
    cases c <;> simp [cmpChars]
  | cons x xs ih =>
    intro b c h1 h2
    cases b with
    | nil => simp [cmpChars] at h1
    | cons y ys =>
      cases c with
      | nil => simp [cmpChars] at h2
      | cons z zs =>
        simp only [cmpChars] at h1 h2 ⊢
        rcases hxy : cmpNat x.toNat y.toNat <;> rw [hxy] at h1 <;>
          rcases hyz : cmpNat y.toNat z.toNat <;> rw [hyz] at h2 <;>
          rcases hxz : cmpNat x.toNat z.toNat <;>
          simp only [cmpNat_eq_lt, cmpNat_eq_eq, cmpNat_eq_gt] at hxy hyz hxz <;>
          first
            | exact absurd rfl h1
            | exact absurd rfl h2
            | (simp; done)
            | exact ih ys zs h1 h2
            | (exfalso; omega)

theorem cmpOptDate_swap (a b : Option Int) :
    cmpOptDate b a = (cmpOptDate a b).swap := by
  cases a <;> cases b
  · rfl
  · rfl
  · rfl
  · exact cmpInt_swap _ _

theorem cmpOptDate_le_trans (a b c : Option Int)
    (h1 : cmpOptDate a b ≠ Ordering.gt) (h2 : cmpOptDate b c ≠ Ordering.gt) :
    cmpOptDate a c ≠ Ordering.gt := by
  cases a <;> cases b <;> cases c <;>
    simp only [cmpOptDate] at h1 h2 ⊢ <;>
    first
      | exact cmpInt_le_trans _ _ _ h1 h2
      | simp_all

theorem sortCmp_swap (so : String)
    (lookup : String → Option (List CategoryAssignment)) (a b : ImagePath) :
    sortCmp so lookup b a = (sortCmp so lookup a b).swap := by
  unfold sortCmp
  split
  · exact cmpChars_swap _ _
  · exact cmpNat_swap _ _
  · exact cmpOptDate_swap _ _
  · exact cmpInt_swap _ _
  · rfl

theorem sortCmp_le_trans (so : String)
    (lookup : String → Option (List CategoryAssignment)) (a b c : ImagePath)
    (h1 : sortCmp so lookup a b ≠ Ordering.gt)
    (h2 : sortCmp so lookup b c ≠ Ordering.gt) :
    sortCmp so lookup a c ≠ Ordering.gt := by
  unfold sortCmp at *
  split at h1 <;> split at h2 <;>
    first
      | exact cmpChars_le_trans _ _ _ h1 h2
      | exact cmpOptDate_le_trans _ _ _ h1 h2
      | exact cmpInt_le_trans _ _ _ h1 h2
      | (rw [Ne, cmpNat_eq_gt] at h1 h2 ⊢; omega)
      | exact h1
      | simp_all

/-! Helper lemmas about the filtering phase. -/

theorem applyCategoryFilter_sublist
    (lookup : String → Option (List CategoryAssignment))
    (category_id : Option String) (images : List ImagePath) :
    (applyCategoryFilter lookup category_id images).Sublist images := by
  unfold applyCategoryFilter
  cases category_id with
  | none => exact List.Sublist.refl _
  | some cid =>
    simp only []
    split
    · exact List.Sublist.refl _
    · split
      · exact List.filter_sublist _
      · exact List.filter_sublist _

theorem applyNameFilter_sublist (name_pattern name_operator : Option String)
    (images : List ImagePath) :
    (applyNameFilter name_pattern name_operator images).Sublist images := by
  unfold applyNameFilter
  cases name_pattern with
  | none => exact List.Sublist.refl _
  | some np =>
    simp only []
    split
    · exact List.Sublist.refl _
    · exact List.filter_sublist _

theorem applySizeFilter_sublist (size_operator size_value size_value2 : Option String)
    (images : List ImagePath) :
    (applySizeFilter size_operator size_value size_value2 images).Sublist images := by
  unfold applySizeFilter
  cases size_value with
  | none => exact List.Sublist.refl _
  | some sv =>
    simp only []
    split
    · exact List.Sublist.refl _
    · split
      · exact List.Sublist.refl _
      · split
        · exact List.filter_sublist _
        · split
          · exact List.Sublist.refl _
          · split
            · exact List.Sublist.refl _
            · split
              · exact List.Sublist.refl _
              · exact List.filter_sublist _
        · exact List.filter_sublist _

theorem applyFilters_sublist (lookup : String → Option (List CategoryAssignment))
    (filter_options : Option FilterOptions) (images : List ImagePath) :
    (applyFilters lookup filter_options images).Sublist images := by
  unfold applyFilters
  cases filter_options with
  | none => exact List.Sublist.refl _
  | some filters =>
    exact ((applySizeFilter_sublist _ _ _ _).trans
      (applyNameFilter_sublist _ _ _)).trans
      (applyCategoryFilter_sublist _ _ _)

/-! Helper lemmas about last-occurrence lookup in the category list. -/

theorem assocLookupLast_append (xs ys : List (String × List CategoryAssignment))
    (p : String) :
    assocLookupLast (xs ++ ys) p =
      match assocLookupLast ys p with
      | some w => some w
      | none => assocLookupLast xs p := by
  induction xs with
  | nil =>
    simp only [List.nil_append]
    cases assocLookupLast ys p <;> rfl
  | cons kv t ih =>
    obtain ⟨k, v⟩ := kv
    simp only [List.cons_append, assocLookupLast, List.append_eq, ih]
    cases assocLookupLast ys p <;> cases assocLookupLast t p <;> rfl

theorem assocLookupLast_filter_ne (l : List (String × List CategoryAssignment))
    (p q : String) (hne : q ≠ p) :
    assocLookupLast (l.filter (fun kv => !(kv.1 == p))) q = assocLookupLast l q := by
  induction l with
  | nil => rfl
  | cons kv t ih =>
    obtain ⟨k, v⟩ := kv
    by_cases hk : k = p
    · subst hk
      simp only [List.filter, beq_self_eq_true, Bool.not_true, assocLookupLast, ih]
      cases h : assocLookupLast t q with
      | some w => rfl
      | none =>
        simp only []
        rw [if_neg]
        intro hc
        exact hne (beq_iff_eq.mp hc).symm
    · have : ((k, v).1 == p) = false := beq_eq_false_iff_ne.mpr hk
      simp only [List.filter, this, Bool.not_false, assocLookupLast, ih]

/-! Generic facts about stable sorting with an Ordering-valued comparator. -/

theorem insertionSort_swapCmp_reverse {α : Type} (c : α → α → Ordering) (l : List α)
    (hswap : ∀ a b, c b a = (c a b).swap)
    (htrans : ∀ a b d, c a b ≠ Ordering.gt → c b d ≠ Ordering.gt →
      c a d ≠ Ordering.gt)
    (hties : l.Pairwise (fun a b => c a b ≠ Ordering.eq)) :
    l.insertionSort (leOf (fun a b => (c a b).swap))
      = (l.insertionSort (leOf c)).reverse := by
  haveI : IsTrans α (leOf c) := ⟨htrans⟩
  haveI : IsTotal α (leOf c) := ⟨by
    intro a b
    rcases h : c a b
    · left; show c a b ≠ Ordering.gt; rw [h]; decide
    · left; show c a b ≠ Ordering.gt; rw [h]; decide
    · right; show c b a ≠ Ordering.gt; rw [hswap, h]; decide⟩
  haveI : IsTrans α (leOf fun a b => (c a b).swap) := ⟨by
    intro a b d hab hbd
    have hab2 : c b a ≠ Ordering.gt := by rw [hswap]; exact hab
    have hbd2 : c d b ≠ Ordering.gt := by rw [hswap]; exact hbd
    have hda := htrans d b a hbd2 hab2
    show (c a d).swap ≠ Ordering.gt
    rw [← hswap]
    exact hda⟩
  haveI : IsTotal α (leOf fun a b => (c a b).swap) := ⟨by
    intro a b
    rcases h : c a b
    · right; show (c b a).swap ≠ Ordering.gt; rw [hswap, h]; decide
    · left; show (c a b).swap ≠ Ordering.gt; rw [h]; decide
    · left; show (c a b).swap ≠ Ordering.gt; rw [h]; decide⟩
  have hsym : ∀ {x y : α}, ((fun a b => c a b ≠ Ordering.eq) x y) →
      ((fun a b => c a b ≠ Ordering.eq) y x) := by
    intro x y h hc
    apply h
    rw [hswap] at hc
    rcases hcc : c x y
    · rw [hcc] at hc; exact absurd hc (by decide)
    · rfl
    · rw [hcc] at hc; exact absurd hc (by decide)
  have hpermA : (l.insertionSort (leOf c)).Perm l := List.perm_insertionSort _ l
  have hpermD : (l.insertionSort (leOf fun a b => (c a b).swap)).Perm l :=
    List.perm_insertionSort _ l
  have hsortedA : (l.insertionSort (leOf c)).Sorted (leOf c) :=
    List.sorted_insertionSort _ l
  have hsortedD : (l.insertionSort (leOf fun a b => (c a b).swap)).Sorted
      (leOf fun a b => (c a b).swap) := List.sorted_insertionSort _ l
  have htiesA : (l.insertionSort (leOf c)).Pairwise
      (fun a b => c a b ≠ Ordering.eq) :=
    (List.Perm.pairwise_iff hsym hpermA).mpr hties
  have htiesD : (l.insertionSort (leOf fun a b => (c a b).swap)).Pairwise
      (fun a b => c a b ≠ Ordering.eq) :=
    (List.Perm.pairwise_iff hsym hpermD).mpr hties
  have hstrictA : (l.insertionSort (leOf c)).Sorted
      (fun a b => c a b = Ordering.lt) := by
    refine (hsortedA.and htiesA).imp ?_
    intro a b hab
    obtain ⟨h1, h2⟩ := hab
    rcases hc : c a b
    · rfl
    · exact absurd hc h2
    · exact absurd hc h1
  have hstrictDrev : (l.insertionSort (leOf fun a b => (c a b).swap)).reverse.Sorted
      (fun a b => c a b = Ordering.lt) := by
    apply List.pairwise_reverse.mpr
    refine (hsortedD.and htiesD).imp ?_
    intro a b hab
    obtain ⟨h1, h2⟩ := hab
    rw [hswap]
    rcases hc : c a b
    · exact absurd (by rw [hc]; rfl : (c a b).swap = Ordering.gt) h1
    · exact absurd hc h2
    · first | rfl | (rw [hc]; rfl)
  haveI : IsAntisymm α (fun a b => c a b = Ordering.lt) := ⟨by
    intro a b h1 h2
    exfalso
    rw [hswap, h1] at h2
    exact absurd h2 (by decide)⟩
  have hperm : (l.insertionSort (leOf fun a b => (c a b).swap)).reverse.Perm
      (l.insertionSort (leOf c)) :=
    ((List.reverse_perm _).trans hpermD).trans hpermA.symm
  have hDA := List.eq_of_perm_of_sorted hperm hstrictDrev hstrictA
  rw [← hDA, List.reverse_reverse]

/-! Claim theorems. -/

/-- C1: for every transform and prior on-disk state of app-config.json,
if the transform passed to update_app_data_sync returns an error then no
write occurs and the prior file content is unchanged; when the transform
succeeds the operation performs load-or-default, applies the transform,
serializes the result and writes exactly that serialization. Exclusive
access is modeled by the whole operation being a single atomic state
transition, as guaranteed by the process-wide mutex held for its whole
duration. -/
theorem update_app_data_sync_spec
    (parse : String → Except String AppData)
    (ser : AppData → Except String String) (file : Option String)
    (update_fn : AppData → Except String AppData) (d : AppData)
    (hload : load_or_default parse file = Except.ok d) :
    (∀ e, update_fn d = Except.error e →
      update_app_data_sync parse ser file update_fn = (file, Except.error e)) ∧
    (∀ d2 s, update_fn d = Except.ok d2 → ser d2 = Except.ok s →
      update_app_data_sync parse ser file update_fn = (some s, Except.ok ())) := by
  constructor
  · intro e he
    simp [update_app_data_sync, hload, he]
  · intro d2 s h1 h2
    simp [update_app_data_sync, hload, h1, h2]

/-- Witness for C1 at a concrete state: a failing transform leaves the
file untouched and surfaces the error; a succeeding transform writes the
serialized document. -/
theorem update_app_data_sync_spec_witness :
    update_app_data_sync (fun _ => Except.ok AppData.default)
        (fun _ => Except.ok "serialized") (some "old content")
        (fun _ => Except.error "boom")
      = (some "old content", Except.error "boom") ∧
    update_app_data_sync (fun _ => Except.ok AppData.default)
        (fun _ => Except.ok "serialized") (some "old content")
        (fun a => Except.ok a)
      = (some "serialized", Except.ok ()) := by
  constructor
  · exact (update_app_data_sync_spec (fun _ => Except.ok AppData.default)
      (fun _ => Except.ok "serialized") (some "old content")
      (fun _ => Except.error "boom") AppData.default rfl).1 "boom" rfl
  · exact (update_app_data_sync_spec (fun _ => Except.ok AppData.default)
      (fun _ => Except.ok "serialized") (some "old content")
      (fun a => Except.ok a) AppData.default rfl).2 AppData.default "serialized" rfl rfl

/-- C2: save_data_file_path mutates only the directory-to-path mapping:
the document it writes has the prior categories and hotkeys unchanged;
save_app_data mutates only categories and hotkeys: the document it writes
has the prior directory-to-path mapping unchanged. -/
theorem save_ops_field_isolation
    (parse : String → Except String AppData)
    (ser : AppData → Except String String) (file : Option String)
    (d : AppData) (directory p : String)
    (cats : List CategoryData) (hks : List HotkeyData)
    (hload : load_or_default parse file = Except.ok d) :
    (∃ dNew, save_data_file_path_transform directory p d = Except.ok dNew ∧
      dNew.categories = d.categories ∧ dNew.hotkeys = d.hotkeys ∧
      ∀ s, ser dNew = Except.ok s →
        save_data_file_path directory p parse ser file = (some s, Except.ok ())) ∧
    (∃ dNew, save_app_data_transform cats hks d = Except.ok dNew ∧
      dNew.data_file_paths = d.data_file_paths ∧
      ∀ s, ser dNew = Except.ok s →
        save_app_data cats hks parse ser file = (some s, Except.ok ())) := by
  constructor
  · refine ⟨_, rfl, rfl, rfl, ?_⟩
    intro s hs
    simp [save_data_file_path, update_app_data_sync, hload,
      save_data_file_path_transform, hs]
  · refine ⟨_, rfl, rfl, ?_⟩
    intro s hs
    simp [save_app_data, update_app_data_sync, hload, save_app_data_transform, hs]

/-- Witness for C2 at a concrete document with nonempty fields: both save
operations complete and write the serialized updated document. -/
theorem save_ops_field_isolation_witness :
    save_data_file_path "dir" "p" (fun _ => Except.ok ⟨[⟨"i", "n", "c"⟩], [],
        some [("d0", "p0")]⟩) (fun _ => Except.ok "out") (some "f")
      = (some "out", Except.ok ()) ∧
    save_app_data [] [] (fun _ => Except.ok ⟨[⟨"i", "n", "c"⟩], [],
        some [("d0", "p0")]⟩) (fun _ => Except.ok "out") (some "f")
      = (some "out", Except.ok ()) := by
  obtain ⟨⟨dN, _, _, _, hw⟩, ⟨dN2, _, _, hw2⟩⟩ :=
    save_ops_field_isolation (fun _ => Except.ok ⟨[⟨"i", "n", "c"⟩], [],
        some [("d0", "p0")]⟩) (fun _ => Except.ok "out") (some "f")
      ⟨[⟨"i", "n", "c"⟩], [], some [("d0", "p0")]⟩ "dir" "p" [] [] rfl
  exact ⟨hw "out" rfl, hw2 "out" rfl⟩

/-- C5: sort_images is total; for every input, including arbitrary sort
key and direction strings and arbitrary filter options, it returns its Ok
variant. -/
theorem sort_images_never_fails
    (images : List ImagePath) (sort_option sort_direction : String)
    (image_categories : List (String × List CategoryAssignment))
    (filter_options : Option FilterOptions) :
    ∃ out, sort_images images sort_option sort_direction image_categories
      filter_options = Except.ok out :=
  ⟨_, rfl⟩

/-- C8: with no filter options and an unrecognized (or empty) sort key,
sort_images returns the input sequence unchanged, in its original order. -/
theorem sort_images_unknown_key_identity
    (images : List ImagePath) (sort_option sort_direction : String)
    (image_categories : List (String × List CategoryAssignment))
    (h1 : sort_option ≠ "name") (h2 : sort_option ≠ "size")
    (h3 : sort_option ≠ "dateCreated") (h4 : sort_option ≠ "lastCategorized") :
    sort_images images sort_option sort_direction image_categories none
      = Except.ok images := by
  unfold sort_images sort_images_core applyFilters applySort
  split <;> simp_all

/-- Witness for C8: an empty sort key passes the input through. -/
theorem sort_images_unknown_key_identity_witness :
    sort_images [⟨"b.jpg", some 2, none⟩, ⟨"a.jpg", some 1, none⟩] "" "descending"
        [] none
      = Except.ok [⟨"b.jpg", some 2, none⟩, ⟨"a.jpg", some 1, none⟩] :=
  sort_images_unknown_key_identity _ _ _ _
    (by decide) (by decide) (by decide) (by decide)

/-- C10: when image_categories carries several entries for one path, the
last entry in input order completely determines the result: deleting all
earlier entries for that path changes nothing, for every sort key,
direction and filter (hence for both category filtering and
lastCategorized sorting). -/
theorem sort_images_duplicate_entries_last_wins
    (images : List ImagePath) (sort_option sort_direction : String)
    (filter_options : Option FilterOptions)
    (l1 l2 : List (String × List CategoryAssignment)) (p : String)
    (v : List CategoryAssignment) :
    sort_images images sort_option sort_direction (l1 ++ (p, v) :: l2)
        filter_options
      = sort_images images sort_option sort_direction
        (l1.filter (fun kv => !(kv.1 == p)) ++ (p, v) :: l2) filter_options := by
  unfold sort_images
  have hfun : assocLookupLast (l1 ++ (p, v) :: l2)
      = assocLookupLast (l1.filter (fun kv => !(kv.1 == p)) ++ (p, v) :: l2) := by
    funext q
    rw [assocLookupLast_append, assocLookupLast_append]
    cases hq : assocLookupLast ((p, v) :: l2) q with
    | some w => rfl
    | none =>
      simp only []
      by_cases hqp : q = p
      · exfalso
        subst hqp
        simp only [assocLookupLast] at hq
        rcases h2 : assocLookupLast l2 q with _ | w
        · rw [h2] at hq
          simp at hq
        · rw [h2] at hq
          simp at hq
      · rw [assocLookupLast_filter_ne _ _ _ hqp]
  rw [hfun]

/-- C6: the category filter keeps, for value "uncategorized", exactly the
records whose assignment sequence is absent from the map or empty, and,
for any other non-empty value, exactly the records with at least one
assignment whose category id equals the value by case-sensitive string
equality — as a list filter, hence a set equality preserving order. -/
theorem category_filter_exact
    (cats : List (String × List CategoryAssignment))
    (images : List ImagePath) (c : String)
    (hne : c ≠ "") (hnu : c ≠ "uncategorized") :
    (applyCategoryFilter (assocLookupLast cats) (some "uncategorized") images
      = images.filter (fun img =>
          ((assocLookupLast cats img.path).getD []).isEmpty)) ∧
    (applyCategoryFilter (assocLookupLast cats) (some c) images
      = images.filter (fun img =>
          ((assocLookupLast cats img.path).getD []).any
            (fun a => a.category_id == c))) := by
  constructor
  · simp only [applyCategoryFilter]
    rw [if_pos trivial]
    apply List.filter_congr
    intro img _
    cases assocLookupLast cats img.path <;> rfl
  · simp only [applyCategoryFilter]
    rw [if_neg hne, if_neg hnu]
    apply List.filter_congr
    intro img _
    cases assocLookupLast cats img.path <;> rfl

/-- Witness for C6: with one categorized and one uncategorized record,
filtering by the concrete id keeps exactly the categorized one, and
filtering by "uncategorized" keeps exactly the other. -/
theorem category_filter_exact_witness :
    applyCategoryFilter (assocLookupLast [("a.jpg", [⟨"c1", "t"⟩])])
        (some "c1") [⟨"a.jpg", none, none⟩, ⟨"b.jpg", none, none⟩]
      = [⟨"a.jpg", none, none⟩] ∧
    applyCategoryFilter (assocLookupLast [("a.jpg", [⟨"c1", "t"⟩])])
        (some "uncategorized") [⟨"a.jpg", none, none⟩, ⟨"b.jpg", none, none⟩]
      = [⟨"b.jpg", none, none⟩] := by
  obtain ⟨h1, h2⟩ := category_filter_exact [("a.jpg", [⟨"c1", "t"⟩])]
    [⟨"a.jpg", none, none⟩, ⟨"b.jpg", none, none⟩] "c1" (by decide) (by decide)
  rw [h1, h2]
  exact ⟨by decide, by decide⟩

theorem applySizeFilter_between_parsed (images : List ImagePath)
    (sx sy : String) (a b : Nat)
    (hpa : parseU64 sx = some a) (hpb : parseU64 sy = some b) :
    applySizeFilter (some "between") (some sx) (some sy) images
      = images.filter (fun img =>
          decide (min (a * 1024 % 2 ^ 64) (b * 1024 % 2 ^ 64)
            ≤ img.size.getD 0) &&
          decide (img.size.getD 0
            ≤ max (a * 1024 % 2 ^ 64) (b * 1024 % 2 ^ 64))) := by
  have hsx : sx ≠ "" := by
    intro h
    subst h
    rw [show parseU64 "" = none from rfl] at hpa
    cases hpa
  have hsy : sy ≠ "" := by
    intro h
    subst h
    rw [show parseU64 "" = none from rfl] at hpb
    cases hpb
  simp [applySizeFilter, hsx, hsy, hpa, hpb]

/-- C7: the between size filter is symmetric in its two threshold
strings; it is a no-op retaining every record when either threshold is
absent, empty or non-numeric; and when both parse, it keeps exactly the
records whose size (0 when missing) lies between the minimum and maximum
of the two thresholds converted from kibibytes to bytes by (wrapping u64)
multiplication by 1024. -/
theorem size_filter_between_spec
    (images : List ImagePath) (x y : Option String) :
    (applySizeFilter (some "between") x y images
      = applySizeFilter (some "between") y x images) ∧
    ((x = none ∨ x = some "" ∨ (∃ sv, x = some sv ∧ parseU64 sv = none) ∨
      y = none ∨ y = some "" ∨ (∃ sv, y = some sv ∧ parseU64 sv = none)) →
      applySizeFilter (some "between") x y images = images) ∧
    (∀ sx sy a b, x = some sx → y = some sy →
      parseU64 sx = some a → parseU64 sy = some b →
      applySizeFilter (some "between") x y images
        = images.filter (fun img =>
            decide (min (a * 1024 % 2 ^ 64) (b * 1024 % 2 ^ 64)
              ≤ img.size.getD 0) &&
            decide (img.size.getD 0
              ≤ max (a * 1024 % 2 ^ 64) (b * 1024 % 2 ^ 64)))) := by
  refine ⟨?_, ?_, ?_⟩
  · cases x with
    | none =>
      cases y with
      | none => rfl
      | some sy =>
        by_cases hsy : sy = ""
        · simp [applySizeFilter, hsy]
        · cases hp : parseU64 sy <;> simp [applySizeFilter, hsy, hp]
    | some sx =>
      cases y with
      | none =>
        by_cases hsx : sx = ""
        · simp [applySizeFilter, hsx]
        · cases hp : parseU64 sx <;> simp [applySizeFilter, hsx, hp]
      | some sy =>
        by_cases hsx : sx = "" <;> by_cases hsy : sy = ""
        · simp [applySizeFilter, hsx, hsy]
        · simp [applySizeFilter, hsx, hsy]
          cases hp : parseU64 sy <;> simp [hp]
        · simp [applySizeFilter, hsx, hsy]
          cases hp : parseU64 sx <;> simp [hp]
        · cases hpx : parseU64 sx with
          | none =>
            cases hpy : parseU64 sy <;>
              simp [applySizeFilter, hsx, hsy, hpx, hpy]
          | some a =>
            cases hpy : parseU64 sy with
            | none => simp [applySizeFilter, hsx, hsy, hpx, hpy]
            | some b =>
              rw [applySizeFilter_between_parsed images sx sy a b hpx hpy,
                applySizeFilter_between_parsed images sy sx b a hpy hpx]
              simp only [Nat.min_comm, Nat.max_comm]
  · intro h
    rcases h with h | h | ⟨sv, h, hp⟩ | h | h | ⟨sv, h, hp⟩ <;> subst h
    · rfl
    · simp [applySizeFilter]
    · by_cases hsv : sv = "" <;> simp [applySizeFilter, hsv, hp]
    · cases x with
      | none => rfl
      | some sx =>
        by_cases hsx : sx = ""
        · simp [applySizeFilter, hsx]
        · cases hp : parseU64 sx <;> simp [applySizeFilter, hsx, hp]
    · cases x with
      | none => rfl
      | some sx =>
        by_cases hsx : sx = ""
        · simp [applySizeFilter, hsx]
        · cases hp : parseU64 sx <;> simp [applySizeFilter, hsx, hp]
    · cases x with
      | none => rfl
      | some sx =>
        by_cases hsx : sx = ""
        · simp [applySizeFilter, hsx]
        · by_cases hsv : sv = ""
          · cases hpx : parseU64 sx <;> simp [applySizeFilter, hsx, hsv, hpx]
          · cases hpx : parseU64 sx <;>
              simp [applySizeFilter, hsx, hsv, hpx, hp]
  · intro sx sy a b hx hy hpa hpb
    subst hx
    subst hy
    exact applySizeFilter_between_parsed images sx sy a b hpa hpb

/-- Witness for C7: thresholds (2, 8) KiB on sizes 1024, 5120, 10240
bytes keep exactly 5120, the same as thresholds (8, 2); and a non-numeric
first threshold keeps all records. -/
theorem size_filter_between_spec_witness :
    applySizeFilter (some "between") (some "2") (some "8")
        [⟨"a", some 1024, none⟩, ⟨"b", some 5120, none⟩, ⟨"c", some 10240, none⟩]
      = [⟨"b", some 5120, none⟩] ∧
    applySizeFilter (some "between") (some "8") (some "2")
        [⟨"a", some 1024, none⟩, ⟨"b", some 5120, none⟩, ⟨"c", some 10240, none⟩]
      = [⟨"b", some 5120, none⟩] ∧
    applySizeFilter (some "between") (some "abc") (some "8")
        [⟨"a", some 1024, none⟩, ⟨"b", some 5120, none⟩, ⟨"c", some 10240, none⟩]
      = [⟨"a", some 1024, none⟩, ⟨"b", some 5120, none⟩, ⟨"c", some 10240, none⟩] := by
  refine ⟨?_, ?_, ?_⟩
  · rw [(size_filter_between_spec
      [⟨"a", some 1024, none⟩, ⟨"b", some 5120, none⟩, ⟨"c", some 10240, none⟩]
      (some "2") (some "8")).2.2 "2" "8" 2 8 rfl rfl (by decide) (by decide)]
    decide
  · rw [(size_filter_between_spec
      [⟨"a", some 1024, none⟩, ⟨"b", some 5120, none⟩, ⟨"c", some 10240, none⟩]
      (some "8") (some "2")).1]
    rw [(size_filter_between_spec
      [⟨"a", some 1024, none⟩, ⟨"b", some 5120, none⟩, ⟨"c", some 10240, none⟩]
      (some "2") (some "8")).2.2 "2" "8" 2 8 rfl rfl (by decide) (by decide)]
    decide
  · exact (size_filter_between_spec
      [⟨"a", some 1024, none⟩, ⟨"b", some 5120, none⟩, ⟨"c", some 10240, none⟩]
      (some "abc") (some "8")).2.1
      (Or.inr (Or.inr (Or.inl ⟨"abc", rfl, by decide⟩)))

/-- C9: the name filter lowercases both the pattern and the record's
file-name component (path basename, not the full path) before comparing;
an unspecified or unrecognized operator behaves as contains; the
startsWith, endsWith and exact operators likewise compare the lowercased
basename with the lowercased pattern. -/
theorem name_filter_spec
    (images : List ImagePath) (np : String) (op : Option String)
    (hnp : np ≠ "")
    (hop : op = none ∨ ∀ s, op = some s →
      s ≠ "startsWith" ∧ s ≠ "endsWith" ∧ s ≠ "exact") :
    (applyNameFilter (some np) op images
      = images.filter (fun img =>
          strContainsSub (((fileName img.path).map strToLower).getD "")
            (strToLower np))) ∧
    (applyNameFilter (some np) (some "exact") images
      = images.filter (fun img =>
          (((fileName img.path).map strToLower).getD "") == strToLower np)) ∧
    (applyNameFilter (some np) (some "startsWith") images
      = images.filter (fun img =>
          strStartsWith (((fileName img.path).map strToLower).getD "")
            (strToLower np))) ∧
    (applyNameFilter (some np) (some "endsWith") images
      = images.filter (fun img =>
          strEndsWith (((fileName img.path).map strToLower).getD "")
            (strToLower np))) := by
  refine ⟨?_, ?_, ?_, ?_⟩
  · rcases hop with h | h
    · subst h
      simp only [applyNameFilter]
      rw [if_neg hnp]
      exact List.filter_congr (fun img _ => rfl)
    · cases op with
      | none =>
        simp only [applyNameFilter]
        rw [if_neg hnp]
        exact List.filter_congr (fun img _ => rfl)
      | some s =>
        obtain ⟨h1, h2, h3⟩ := h s rfl
        simp only [applyNameFilter]
        rw [if_neg hnp]
        apply List.filter_congr
        intro img _
        simp only [Option.getD_some]
        first
          | rfl
          | (split <;> first | rfl | simp_all)
  · simp only [applyNameFilter]
    rw [if_neg hnp]
    exact List.filter_congr (fun img _ => rfl)
  · simp only [applyNameFilter]
    rw [if_neg hnp]
    exact List.filter_congr (fun img _ => rfl)
  · simp only [applyNameFilter]
    rw [if_neg hnp]
    exact List.filter_congr (fun img _ => rfl)

/-- Witness for C9: an uppercase pattern with an unrecognized operator
matches a lowercase basename by substring, ignoring the directory part. -/
theorem name_filter_spec_witness :
    applyNameFilter (some "X.J") (some "weird")
        [⟨"a/B/sx.jpg", none, none⟩, ⟨"x.j/c.png", none, none⟩]
      = [⟨"a/B/sx.jpg", none, none⟩] := by
  rw [(name_filter_spec [⟨"a/B/sx.jpg", none, none⟩, ⟨"x.j/c.png", none, none⟩]
    "X.J" (some "weird") (by decide)
    (Or.inr (by intro s hs; cases hs; exact ⟨by decide, by decide, by decide⟩))).1]
  decide

/-- C3 counterexample: two records in different directories share the
basename x.jpg, so the name comparator ties; the stable sort keeps input
order under both directions (the code reverses the comparator, not the
sorted sequence), hence descending is not the reverse of ascending. -/
theorem sort_images_descending_not_reverse :
    sort_images [⟨"a/x.jpg", none, none⟩, ⟨"b/x.jpg", none, none⟩] "name"
        "descending" [] none
      ≠ (sort_images [⟨"a/x.jpg", none, none⟩, ⟨"b/x.jpg", none, none⟩] "name"
        "ascending" [] none).map List.reverse := by
  intro h
  rw [show sort_images [⟨"a/x.jpg", none, none⟩, ⟨"b/x.jpg", none, none⟩] "name"
      "descending" [] none
    = Except.ok [⟨"a/x.jpg", none, none⟩, ⟨"b/x.jpg", none, none⟩] from rfl] at h
  rw [show (sort_images [⟨"a/x.jpg", none, none⟩, ⟨"b/x.jpg", none, none⟩] "name"
      "ascending" [] none).map List.reverse
    = Except.ok [⟨"b/x.jpg", none, none⟩, ⟨"a/x.jpg", none, none⟩] from rfl] at h
  injection h with h
  exact absurd h (by decide)

/-- C3 amended: descending sorts with the pointwise-reversed comparator
under a stable sort, so when no two records tie on the sort key the
descending output is exactly the reverse of the ascending output, for
every recognized sort key and filter; when ties exist, tied records keep
input order in both directions instead of being reversed. -/
theorem sort_images_descending_reverse_of_no_ties
    (so : String) (images : List ImagePath)
    (cats : List (String × List CategoryAssignment)) (fo : Option FilterOptions)
    (hso : so = "name" ∨ so = "size" ∨ so = "dateCreated" ∨ so = "lastCategorized")
    (hties : images.Pairwise
      (fun a b => sortCmp so (assocLookupLast cats) a b ≠ Ordering.eq)) :
    sort_images images so "descending" cats fo
      = (sort_images images so "ascending" cats fo).map List.reverse := by
  unfold sort_images sort_images_core
  have hsub := applyFilters_sublist (assocLookupLast cats) fo images
  rcases hso with h | h | h | h <;> subst h <;>
    simp only [Except.map] <;>
    refine congrArg Except.ok ?_ <;>
    exact insertionSort_swapCmp_reverse _
      (applyFilters (assocLookupLast cats) fo images)
      (fun a b => sortCmp_swap _ _ a b)
      (fun a b d => sortCmp_le_trans _ _ a b d)
      (hties.sublist hsub)

/-- Witness for C3 amended: two distinct basenames, descending equals the
reversed ascending output. -/
theorem sort_images_descending_reverse_of_no_ties_witness :
    sort_images [⟨"a.jpg", none, none⟩, ⟨"b.jpg", none, none⟩] "name"
        "descending" [] none
      = (sort_images [⟨"a.jpg", none, none⟩, ⟨"b.jpg", none, none⟩] "name"
        "ascending" [] none).map List.reverse :=
  sort_images_descending_reverse_of_no_ties "name"
    [⟨"a.jpg", none, none⟩, ⟨"b.jpg", none, none⟩] [] none
    (Or.inl rfl) (by decide)

/-- The lastCategorized sort value is 0 when the image has no entry in
the map, an empty assignment list, or no parseable assignment timestamp. -/
theorem get_latest_assignment_eq_zero
    (lookup : String → Option (List CategoryAssignment)) (p : String)
    (h : lookup p = none ∨ lookup p = some [] ∨
      (∃ as, lookup p = some as ∧
        as.filterMap (fun a => parseRFC3339 a.assigned_at) = [])) :
    get_latest_assignment lookup p = 0 := by
  rcases h with h | h | ⟨as, h, hfm⟩
  · simp [get_latest_assignment, h]
  · simp [get_latest_assignment, h]
  · cases as with
    | nil => simp [get_latest_assignment, h]
    | cons a t => simp [get_latest_assignment, h, hfm]

/-- The lastCategorized sort value is the maximum parseable assignment
timestamp when at least one assignment timestamp parses. -/
theorem get_latest_assignment_eq_max
    (lookup : String → Option (List CategoryAssignment)) (p : String)
    (as : List CategoryAssignment) (m : Int)
    (h : lookup p = some as)
    (hm : (as.filterMap (fun a => parseRFC3339 a.assigned_at)).max? = some m) :
    get_latest_assignment lookup p = m := by
  cases as with
  | nil => simp at hm
  | cons a t => simp [get_latest_assignment, h, hm]

/-- C4 counterexample: the sentinel for never-categorized images is the
timestamp 0 (the Unix epoch), not a minimal value; a record with a real,
parseable pre-epoch assignment timestamp (1969-12-31, epoch second
-86400) sorts BEFORE the never-categorized record in ascending order,
contradicting that the sentinel sorts before any record with a real
parseable timestamp. -/
theorem last_categorized_sentinel_counterexample :
    parseRFC3339 "1969-12-31T00:00:00Z" = some (-86400) ∧
    sort_images [⟨"u.jpg", none, none⟩, ⟨"b.jpg", none, none⟩] "lastCategorized"
        "ascending" [("b.jpg", [⟨"c1", "1969-12-31T00:00:00Z"⟩])] none
      = Except.ok [⟨"b.jpg", none, none⟩, ⟨"u.jpg", none, none⟩] :=
  ⟨rfl, rfl⟩

/-- C4 amended: under the lastCategorized key each record's sort value is
the maximum of the parseable assignment timestamps in its list; a record
with an absent entry, empty list or no parseable timestamp gets the
sentinel value 0 (the Unix epoch), which sorts before any record whose
latest parseable timestamp is positive (after the epoch) — but not before
records whose timestamps are at or before the epoch; and the ascending
output is nondecreasing in this sort value. -/
theorem last_categorized_sort_semantics :
    (∀ (lookup : String → Option (List CategoryAssignment)) (p : String),
      (lookup p = none ∨ lookup p = some [] ∨
        (∃ as, lookup p = some as ∧
          as.filterMap (fun a => parseRFC3339 a.assigned_at) = [])) →
      get_latest_assignment lookup p = 0) ∧
    (∀ (lookup : String → Option (List CategoryAssignment)) (p : String)
      (as : List CategoryAssignment) (m : Int),
      lookup p = some as →
      (as.filterMap (fun a => parseRFC3339 a.assigned_at)).max? = some m →
      get_latest_assignment lookup p = m) ∧
    (∀ (lookup : String → Option (List CategoryAssignment)) (p q : String)
      (as : List CategoryAssignment) (m : Int),
      (lookup p = none ∨ lookup p = some [] ∨
        (∃ es, lookup p = some es ∧
          es.filterMap (fun a => parseRFC3339 a.assigned_at) = [])) →
      lookup q = some as →
      (as.filterMap (fun a => parseRFC3339 a.assigned_at)).max? = some m →
      0 < m →
      get_latest_assignment lookup p < get_latest_assignment lookup q) ∧
    (∀ (images : List ImagePath)
      (cats : List (String × List CategoryAssignment))
      (fo : Option FilterOptions) (out : List ImagePath),
      sort_images images "lastCategorized" "ascending" cats fo = Except.ok out →
      out.Pairwise (fun a b =>
        get_latest_assignment (assocLookupLast cats) a.path
          ≤ get_latest_assignment (assocLookupLast cats) b.path)) := by
  refine ⟨get_latest_assignment_eq_zero, get_latest_assignment_eq_max, ?_, ?_⟩
  · intro lookup p q as m hp hq hm hpos
    rw [get_latest_assignment_eq_zero lookup p hp,
      get_latest_assignment_eq_max lookup q as m hq hm]
    exact hpos
  · intro images cats fo out h
    unfold sort_images at h
    injection h with h
    subst h
    unfold sort_images_core
    haveI : IsTrans ImagePath (leOf (fun a b =>
        cmpInt (get_latest_assignment (assocLookupLast cats) a.path)
          (get_latest_assignment (assocLookupLast cats) b.path))) :=
      ⟨fun a b d h1 h2 => cmpInt_le_trans _ _ _ h1 h2⟩
    haveI : IsTotal ImagePath (leOf (fun a b =>
        cmpInt (get_latest_assignment (assocLookupLast cats) a.path)
          (get_latest_assignment (assocLookupLast cats) b.path))) := ⟨by
      intro a b
      simp only [leOf, ne_eq, cmpInt_eq_gt]
      omega⟩
    have hsorted := List.sorted_insertionSort (leOf (fun a b =>
        cmpInt (get_latest_assignment (assocLookupLast cats) a.path)
          (get_latest_assignment (assocLookupLast cats) b.path)))
      (applyFilters (assocLookupLast cats) fo images)
    refine hsorted.imp ?_
    intro a b hab
    have : cmpInt (get_latest_assignment (assocLookupLast cats) a.path)
        (get_latest_assignment (assocLookupLast cats) b.path) ≠ Ordering.gt := hab
    rw [Ne, cmpInt_eq_gt] at this
    omega

/-- Witness for C4 amended: a never-categorized image gets value 0; an
image categorized on 2024-01-01 gets the parsed epoch value, larger than
the sentinel; and a concrete ascending sort output is nondecreasing. -/
theorem last_categorized_sort_semantics_witness :
    get_latest_assignment
      (assocLookupLast [("b.jpg", [⟨"c1", "2024-01-01T00:00:00Z"⟩])]) "u.jpg"
      = 0 ∧
    get_latest_assignment
      (assocLookupLast [("b.jpg", [⟨"c1", "2024-01-01T00:00:00Z"⟩])]) "b.jpg"
      = 1704067200 ∧
    get_latest_assignment
      (assocLookupLast [("b.jpg", [⟨"c1", "2024-01-01T00:00:00Z"⟩])]) "u.jpg"
      < get_latest_assignment
        (assocLookupLast [("b.jpg", [⟨"c1", "2024-01-01T00:00:00Z"⟩])]) "b.jpg" ∧
    ([⟨"u.jpg", none, none⟩, ⟨"b.jpg", none, none⟩] : List ImagePath).Pairwise
      (fun a b =>
      get_latest_assignment
        (assocLookupLast [("b.jpg", [⟨"c1", "2024-01-01T00:00:00Z"⟩])]) a.path
        ≤ get_latest_assignment
          (assocLookupLast [("b.jpg", [⟨"c1", "2024-01-01T00:00:00Z"⟩])]) b.path) :=
  ⟨last_categorized_sort_semantics.1 _ "u.jpg" (Or.inl rfl),
   last_categorized_sort_semantics.2.1 _ "b.jpg" _ 1704067200 rfl (by decide),
   by
    rw [last_categorized_sort_semantics.1 _ "u.jpg" (Or.inl rfl),
      last_categorized_sort_semantics.2.1 _ "b.jpg"
        [⟨"c1", "2024-01-01T00:00:00Z"⟩] 1704067200 rfl (by decide)]
    decide,
   last_categorized_sort_semantics.2.2.2
     [⟨"u.jpg", none, none⟩, ⟨"b.jpg", none, none⟩]
     [("b.jpg", [⟨"c1", "2024-01-01T00:00:00Z"⟩])] none
     [⟨"u.jpg", none, none⟩, ⟨"b.jpg", none, none⟩] rfl⟩

end Hito
